import Mathlib

/-!
Verification of the SSH-key client of `hcloud` (source file `hcloud/ssh_key.go`).

The source under `src/` contains the SSH-key resource client: the domain type
`SSHKey`, the converter `SSHKeyFromSchema`, and the methods `Get`, `List`,
`All`, `Create` (with `SSHKeyCreateOpts.Validate`) and `Delete` of
`SSHKeyClient`.  The generic transport (`Client.NewRequest`, `Client.Do`,
`Client.all`, `valuesForListOpts`) lives in files of this repository that are
not under `src/`; those parts are modelled from the spec, as marked in their
doc comments.

Modelling conventions:
* Go `nil` pointers / `nil` slices / `nil` errors are `Option.none`;
  a non-nil Go value `v` is `some v`.
* Go `error` values are the inductive `ClientError` (spec section 7 taxonomy:
  validation / API / transport).
* The network is an oracle `Wire β : Request → Except String (HttpReply β)`:
  `.error msg` is a network-level failure, `.ok reply` is an HTTP response
  (status, pagination metadata, decoded success body, error code of the
  error body).  Each client method returns its Go results together with the
  list of HTTP requests it issued, so that statements about "no request is
  made" and "which pages are fetched" are expressible.
-/

/-- Wire representation of an SSH key (`schema.SSHKey`) as read by
`SSHKeyFromSchema`: the fields `ID`, `Name`, `Fingerprint`, `PublicKey`. -/
structure SchemaSSHKey where
  ID : Int
  Name : String
  Fingerprint : String
  PublicKey : String
  deriving DecidableEq

/-- Structure `SSHKey` of `ssh_key.go`: domain representation of an SSH key. -/
structure SSHKey where
  ID : Int
  Name : String
  Fingerprint : String
  PublicKey : String
  deriving DecidableEq

/-- Function `SSHKeyFromSchema` of `ssh_key.go`: converts a `schema.SSHKey` to a
`SSHKey`, copying the four fields. -/
def SSHKeyFromSchema (s : SchemaSSHKey) : SSHKey :=
  ⟨s.ID, s.Name, s.Fingerprint, s.PublicKey⟩

/-- Structure `SSHKeyCreateOpts` of `ssh_key.go`. -/
structure SSHKeyCreateOpts where
  Name : String
  PublicKey : String
  deriving DecidableEq

/-- Method `SSHKeyCreateOpts.Validate` of `ssh_key.go`.  Go returns an `error`;
`some msg` models `errors.New(msg)`, `none` models `nil`. -/
def SSHKeyCreateOpts.Validate (o : SSHKeyCreateOpts) : Option String :=
  if o.Name = "" then some "missing name"
  else if o.PublicKey = "" then some "missing public key"
  else none

/-- Modelled from the spec: `ListOpts` is declared outside `src/`; per spec
sections 3 and 6 it carries the page number and page size, translated to the
`page` / `per_page` query parameters. -/
structure ListOpts where
  Page : Nat
  PerPage : Nat
  deriving DecidableEq

/-- Type `SSHKeyListOpts` of `ssh_key.go` embeds `ListOpts` and adds nothing. -/
abbrev SSHKeyListOpts := ListOpts

/-- Modelled from the spec: `valuesForListOpts` is declared outside `src/`;
spec sections 3 and 6 say the list options are translated to the `page` /
`per_page` query-string parameters, the options being optional (a zero value
contributes no parameter).  The result is the association list underlying
`url.Values`, in `Encode` order (keys sorted: `page` before `per_page`). -/
def valuesForListOpts (opts : ListOpts) : List (String × String) :=
  (if opts.Page > 0 then [("page", toString opts.Page)] else []) ++
  (if opts.PerPage > 0 then [("per_page", toString opts.PerPage)] else [])

/-- Modelled from the spec: `url.Values.Encode` renders the (sorted)
association list as `k1=v1&k2=v2&...`. -/
def encodeValues : List (String × String) → String
  | [] => ""
  | [kv] => kv.1 ++ "=" ++ kv.2
  | kv :: rest => kv.1 ++ "=" ++ kv.2 ++ "&" ++ encodeValues rest

/-- An HTTP request as built by `Client.NewRequest`: method, path, and
whether a request body is attached. -/
structure Request where
  method : String
  path : String
  hasBody : Bool
  deriving DecidableEq

/-- Modelled from the spec: pagination metadata of a response
(`schema.MetaPagination`), declared outside `src/`; spec section 3: current
page, last page, page size, total entries. -/
structure Pagination where
  Page : Nat
  LastPage : Nat
  PerPage : Nat
  TotalEntries : Nat
  deriving DecidableEq

/-- Modelled from the spec: `Response` wraps the raw HTTP response plus the
parsed pagination metadata (spec section 3); `pagination = none` models a
response without pagination metadata. -/
structure Response where
  status : Nat
  pagination : Option Pagination
  deriving DecidableEq

/-- Spec section 7 error taxonomy: local validation errors, provider API
errors (non-2xx with a structured error body carrying a code), and
network/transport errors. -/
inductive ClientError where
  | validation (msg : String)
  | api (code : String)
  | transport (msg : String)
  deriving DecidableEq

/-- An HTTP reply as seen on the wire for an endpoint whose success body
decodes to `β`: status, pagination metadata, decoded success body
(meaningful when the status is 2xx), and the error code of the structured
error body (meaningful when the status is not 2xx). -/
structure HttpReply (β : Type) where
  status : Nat
  meta : Option Pagination
  body : β
  errCode : String
  deriving DecidableEq

/-- The network oracle: what the provider answers to each request.
`.error msg` is a network-level (transport) failure. -/
abbrev Wire (β : Type) := Request → Except String (HttpReply β)

/-- Modelled from the spec: `Client.Do` is declared outside `src/`.  Spec
sections 2, 4.3, 6: it deserializes 2xx response bodies into the typed body,
and maps a non-2xx response to a structured API error carrying the
provider-defined error code; network failures become transport errors with a
nil response.  "Not found" is NOT special-cased here (spec section 4.3 places
that at the Get-style call sites).  Returns `(resp, err-or-body)` as Go's
`Do` returns `(*Response, error)` next to the decoded body. -/
def clientDo {β : Type} (w : Except String (HttpReply β)) :
    Option Response × Except ClientError β :=
  match w with
  | .error msg => (none, .error (.transport msg))
  | .ok r =>
      if 200 ≤ r.status ∧ r.status < 300 then
        (some ⟨r.status, r.meta⟩, .ok r.body)
      else
        (some ⟨r.status, r.meta⟩, .error (.api r.errCode))

/-- The request built by `SSHKeyClient.Get`: `GET /ssh_keys/{id}`, no body. -/
def getRequest (id : Int) : Request :=
  ⟨"GET", "/ssh_keys/" ++ toString id, false⟩

/-- Result triple of `SSHKeyClient.Get`: `(*SSHKey, *Response, error)`. -/
structure GetResult where
  sshKey : Option SSHKey
  resp : Option Response
  err : Option ClientError
  deriving DecidableEq

/-- Method `SSHKeyClient.Get` of `ssh_key.go`: builds `GET /ssh_keys/{id}`, calls
`Do`, and on ANY error returns `(nil, nil, err)`; on success converts the
body.  Also returns the list of issued requests. -/
def getSSHKey (id : Int) (wire : Wire SchemaSSHKey) : GetResult × List Request :=
  match clientDo (wire (getRequest id)) with
  | (_, .error e) => (⟨none, none, some e⟩, [getRequest id])
  | (r, .ok b) => (⟨some (SSHKeyFromSchema b), r, none⟩, [getRequest id])

/-- The request built by `SSHKeyClient.List`:
`GET /ssh_keys?` + encoded list options, no body. -/
def listRequest (opts : ListOpts) : Request :=
  ⟨"GET", "/ssh_keys?" ++ encodeValues (valuesForListOpts opts), false⟩

/-- Result triple of `SSHKeyClient.List`: `([]*SSHKey, *Response, error)`.
`sshKeys = none` models a nil slice. -/
structure SSHKeyListResult where
  sshKeys : Option (List SSHKey)
  resp : Option Response
  err : Option ClientError
  deriving DecidableEq

/-- Method `SSHKeyClient.List` of `ssh_key.go`: builds the request from the list
options, calls `Do`; on error returns `(nil, nil, err)`; on success converts
every schema key in order into a freshly allocated (non-nil) slice. -/
def listSSHKeys (opts : SSHKeyListOpts) (wire : Wire (List SchemaSSHKey)) :
    SSHKeyListResult × List Request :=
  match clientDo (wire (listRequest opts)) with
  | (_, .error e) => (⟨none, none, some e⟩, [listRequest opts])
  | (r, .ok body) => (⟨some (body.map SSHKeyFromSchema), r, none⟩, [listRequest opts])

/-- The request built by `SSHKeyClient.Create`: `POST /ssh_keys` with a JSON
body. -/
def createRequest : Request :=
  ⟨"POST", "/ssh_keys", true⟩

/-- Result triple of `SSHKeyClient.Create`: `(*SSHKey, *Response, error)`. -/
structure CreateResult where
  sshKey : Option SSHKey
  resp : Option Response
  err : Option ClientError
  deriving DecidableEq

/-- Method `SSHKeyClient.Create` of `ssh_key.go`: validates the options first and
returns the validation error before building any request; otherwise posts to
`/ssh_keys` and on a `Do` error returns `(nil, resp, err)`, on success the
converted key.  (Marshalling two string fields cannot fail and is modelled as
always succeeding.) -/
def createSSHKey (opts : SSHKeyCreateOpts) (wire : Wire SchemaSSHKey) :
    CreateResult × List Request :=
  match opts.Validate with
  | some msg => (⟨none, none, some (.validation msg)⟩, [])
  | none =>
      match clientDo (wire createRequest) with
      | (r, .error e) => (⟨none, r, some e⟩, [createRequest])
      | (r, .ok b) => (⟨some (SSHKeyFromSchema b), r, none⟩, [createRequest])

/-- The request built by `SSHKeyClient.Delete`: `DELETE /ssh_keys/{id}`,
no body. -/
def deleteRequest (id : Int) : Request :=
  ⟨"DELETE", "/ssh_keys/" ++ toString id, false⟩

/-- Result pair of `SSHKeyClient.Delete`: `(*Response, error)`. -/
structure DeleteResult where
  resp : Option Response
  err : Option ClientError
  deriving DecidableEq

/-- Method `SSHKeyClient.Delete` of `ssh_key.go`: builds `DELETE /ssh_keys/{id}`
and returns `Do`'s `(resp, err)` unchanged; `Do` is called with a nil body
target (`Unit` body: nothing is decoded). -/
def deleteSSHKey (id : Int) (wire : Wire Unit) : DeleteResult × List Request :=
  match clientDo (wire (deleteRequest id)) with
  | (r, .ok _) => (⟨r, none⟩, [deleteRequest id])
  | (r, .error e) => (⟨r, some e⟩, [deleteRequest id])

/-- Modelled from the spec: `Client.all` (spec section 4.1, Pagination
Aggregator) is declared outside `src/`.  Given a page-fetch function, it
calls it with page = 1, 2, 3, ... until the response's pagination metadata
indicates the last page has been reached (`lastPage ≤ page`) or no pagination
metadata is present; it stops on the first error, which propagates.  The
page-fetch function mutates client state in Go; here the state `σ` is passed
explicitly.  A fuel argument bounds the iteration (the Go loop is unbounded);
every theorem below supplies enough fuel for the pages it describes, so the
out-of-fuel branch is never observed. -/
def clientAll {σ : Type} (f : Nat → σ → (Option Response × Option ClientError) × σ) :
    Nat → Nat → σ → (Option Response × Option ClientError) × σ
  | 0, _, s => ((none, none), s)
  | fuel + 1, page, s =>
      match f page s with
      | ((r, some e), s1) => ((r, some e), s1)
      | ((r, none), s1) =>
          match r with
          | none => ((none, none), s1)
          | some resp =>
              match resp.pagination with
              | none => ((some resp, none), s1)
              | some pg =>
                  if pg.LastPage ≤ page then ((some resp, none), s1)
                  else clientAll f fuel (page + 1) s1

/-- The page-fetch closure passed by `SSHKeyClient.All` to `Client.all`:
fetch one page with `Page := page`, `PerPage := 50`; on error return
`(resp, err)` (the source `List` already nils the response on error);
on success append the page's keys to the accumulator.  The state is
`(accumulated keys, issued requests)`. -/
def allStep (wire : Wire (List SchemaSSHKey)) (page : Nat)
    (s : List SSHKey × List Request) :
    (Option Response × Option ClientError) × (List SSHKey × List Request) :=
  match listSSHKeys ⟨page, 50⟩ wire with
  | (r, reqs) =>
      match r.err with
      | some e => ((r.resp, some e), (s.1, s.2 ++ reqs))
      | none => ((r.resp, none), (s.1 ++ r.sshKeys.getD [], s.2 ++ reqs))

/-- Result pair of `SSHKeyClient.All`: `([]*SSHKey, error)`. -/
structure AllResult where
  sshKeys : Option (List SSHKey)
  err : Option ClientError
  deriving DecidableEq

/-- Method `SSHKeyClient.All` of `ssh_key.go`: starts from an empty (non-nil)
accumulator, runs the aggregator from page 1 with `PerPage = 50`; on error
returns `(nil, err)` (discarding any accumulated keys), on success the
accumulator. -/
def allSSHKeys (wire : Wire (List SchemaSSHKey)) (fuel : Nat) :
    AllResult × List Request :=
  match clientAll (allStep wire) fuel 1 ([], []) with
  | ((_, some e), s) => (⟨none, some e⟩, s.2)
  | ((_, none), s) => (⟨some s.1, none⟩, s.2)

/-- The request `All` issues for page `p`: list request with
`Page = p`, `PerPage = 50`. -/
def pageReq (p : Nat) : Request :=
  listRequest ⟨p, 50⟩

/-- Concatenation of the pages `g k, g (k+1), ..., g (k+c-1)` in page
order. -/
def pageSeq (g : Nat → List SchemaSSHKey) (k : Nat) : Nat → List SchemaSSHKey
  | 0 => []
  | c + 1 => g k ++ pageSeq g (k + 1) c

/-- The page requests for pages `k, k+1, ..., k+c-1`, in order. -/
def reqSeq (k : Nat) : Nat → List Request
  | 0 => []
  | c + 1 => pageReq k :: reqSeq (k + 1) c

/-! ## Basic facts about the request traces -/

/-- Method `List` issues exactly one request, built by `listRequest`, whatever the
wire answers. -/
theorem listSSHKeys_trace (opts : SSHKeyListOpts) (wire : Wire (List SchemaSSHKey)) :
    (listSSHKeys opts wire).2 = [listRequest opts] := by
  unfold listSSHKeys
  rcases clientDo (wire (listRequest opts)) with ⟨r, e⟩
  cases e <;> rfl

/-! ## Claim C9 -/

/-- Claim C9: `SSHKeyFromSchema` is a pure, total field-by-field mapping:
the result copies `ID`, `Name`, `Fingerprint`, `PublicKey` from the schema
value, and two schema values mapping to equal domain values agree on those
four fields. -/
theorem sshKeyFromSchema_fields_and_injective :
    (∀ s : SchemaSSHKey,
      (SSHKeyFromSchema s).ID = s.ID ∧ (SSHKeyFromSchema s).Name = s.Name ∧
      (SSHKeyFromSchema s).Fingerprint = s.Fingerprint ∧
      (SSHKeyFromSchema s).PublicKey = s.PublicKey) ∧
    (∀ s t : SchemaSSHKey, SSHKeyFromSchema s = SSHKeyFromSchema t →
      s.ID = t.ID ∧ s.Name = t.Name ∧ s.Fingerprint = t.Fingerprint ∧
      s.PublicKey = t.PublicKey) := by
  constructor
  · intro s
    exact ⟨rfl, rfl, rfl, rfl⟩
  · intro s t h
    exact ⟨congrArg SSHKey.ID h, congrArg SSHKey.Name h,
      congrArg SSHKey.Fingerprint h, congrArg SSHKey.PublicKey h⟩

/-- Witness for C9 at a concrete schema value. -/
theorem sshKeyFromSchema_fields_and_injective_witness :
    (⟨7, "k", "fp", "pk"⟩ : SchemaSSHKey).ID = (⟨7, "k", "fp", "pk"⟩ : SchemaSSHKey).ID ∧
    (⟨7, "k", "fp", "pk"⟩ : SchemaSSHKey).Name = (⟨7, "k", "fp", "pk"⟩ : SchemaSSHKey).Name ∧
    (⟨7, "k", "fp", "pk"⟩ : SchemaSSHKey).Fingerprint = (⟨7, "k", "fp", "pk"⟩ : SchemaSSHKey).Fingerprint ∧
    (⟨7, "k", "fp", "pk"⟩ : SchemaSSHKey).PublicKey = (⟨7, "k", "fp", "pk"⟩ : SchemaSSHKey).PublicKey :=
  sshKeyFromSchema_fields_and_injective.2 ⟨7, "k", "fp", "pk"⟩ ⟨7, "k", "fp", "pk"⟩ rfl

/-! ## Claim C10 -/

/-- Claim C10: `Validate` returns nil exactly when both `Name` and
`PublicKey` are non-empty; the checks are ordered: an empty `Name` yields
"missing name" regardless of `PublicKey`, a non-empty `Name` with empty
`PublicKey` yields "missing public key". -/
theorem validate_iff_and_ordered :
    (∀ o : SSHKeyCreateOpts, o.Validate = none ↔ (o.Name ≠ "" ∧ o.PublicKey ≠ "")) ∧
    (∀ o : SSHKeyCreateOpts, o.Name = "" → o.Validate = some "missing name") ∧
    (∀ o : SSHKeyCreateOpts, o.Name ≠ "" → o.PublicKey = "" →
      o.Validate = some "missing public key") := by
  refine ⟨fun o => ?_, fun o h => ?_, fun o h1 h2 => ?_⟩
  · by_cases hn : o.Name = "" <;> by_cases hp : o.PublicKey = "" <;>
      simp [SSHKeyCreateOpts.Validate, hn, hp]
  · simp [SSHKeyCreateOpts.Validate, h]
  · simp [SSHKeyCreateOpts.Validate, h1, h2]

/-- Witness for C10 on concrete option values. -/
theorem validate_iff_and_ordered_witness :
    SSHKeyCreateOpts.Validate ⟨"", ""⟩ = some "missing name" ∧
    SSHKeyCreateOpts.Validate ⟨"n", ""⟩ = some "missing public key" ∧
    SSHKeyCreateOpts.Validate ⟨"n", "k"⟩ = none :=
  ⟨validate_iff_and_ordered.2.1 ⟨"", ""⟩ rfl,
   validate_iff_and_ordered.2.2 ⟨"n", ""⟩ (by decide) rfl,
   (validate_iff_and_ordered.1 ⟨"n", "k"⟩).2 ⟨by decide, by decide⟩⟩

/-! ## Claim C1 -/

/-- Claim C1 is refuted by the code: when the provider reports a not-found
API error (HTTP 404 with error code `not_found`) for `SSHKeyClient.Get`,
the source's only error path is `return nil, nil, err`, so `Get` returns a
non-nil error (and a nil response) instead of the claimed
`(nil, response, nil)`. -/
theorem getSSHKey_notFound_surfaces_error :
    getSSHKey 1 (fun _ => .ok ⟨404, none, ⟨0, "", "", ""⟩, "not_found"⟩) =
      (⟨none, none, some (.api "not_found")⟩, [⟨"GET", "/ssh_keys/1", false⟩]) := by
  decide

/-! ## Claim C4 -/

/-- Claim C4: `Create` with an empty `Name` or an empty `PublicKey` returns
a validation error and issues no HTTP request. -/
theorem createSSHKey_invalid_no_request (opts : SSHKeyCreateOpts)
    (wire : Wire SchemaSSHKey) (h : opts.Name = "" ∨ opts.PublicKey = "") :
    (∃ msg, (createSSHKey opts wire).1 = ⟨none, none, some (.validation msg)⟩) ∧
    (createSSHKey opts wire).2 = [] := by
  have hv : ∃ msg, opts.Validate = some msg := by
    rcases h with h | h
    · exact ⟨"missing name", by simp [SSHKeyCreateOpts.Validate, h]⟩
    · by_cases hn : opts.Name = ""
      · exact ⟨"missing name", by simp [SSHKeyCreateOpts.Validate, hn]⟩
      · exact ⟨"missing public key", by simp [SSHKeyCreateOpts.Validate, hn, h]⟩
  obtain ⟨msg, hm⟩ := hv
  exact ⟨⟨msg, by simp [createSSHKey, hm]⟩, by simp [createSSHKey, hm]⟩

/-- Witness for C4: empty name, a wire that would fail if contacted. -/
theorem createSSHKey_invalid_no_request_witness :
    (∃ msg, (createSSHKey ⟨"", "pk"⟩ (fun _ => .error "down")).1 =
      ⟨none, none, some (.validation msg)⟩) ∧
    (createSSHKey ⟨"", "pk"⟩ (fun _ => .error "down")).2 = [] :=
  createSSHKey_invalid_no_request ⟨"", "pk"⟩ (fun _ => .error "down") (Or.inl rfl)

/-! ## Claim C6 -/

/-- Claim C6: with explicit (positive) `Page` and `PerPage`, `List` issues a
single GET request whose path is `/ssh_keys?` followed by the query-string
encoding of the options, in which `page` and `per_page` carry the given
values. -/
theorem listSSHKeys_query_encoding (opts : SSHKeyListOpts)
    (wire : Wire (List SchemaSSHKey)) (hp : 0 < opts.Page) (hpp : 0 < opts.PerPage) :
    (listSSHKeys opts wire).2 =
      [⟨"GET",
        "/ssh_keys?" ++
          ("page=" ++ toString opts.Page ++ "&" ++ ("per_page=" ++ toString opts.PerPage)),
        false⟩] := by
  rw [listSSHKeys_trace]
  have hv : valuesForListOpts opts =
      [("page", toString opts.Page), ("per_page", toString opts.PerPage)] := by
    simp [valuesForListOpts, hp, hpp]
  have henc : encodeValues (valuesForListOpts opts) =
      "page=" ++ toString opts.Page ++ "&" ++ ("per_page=" ++ toString opts.PerPage) := by
    rw [hv]
    rfl
  unfold listRequest
  rw [henc]

/-- Witness for C6 at page 2, page size 50 (the values of the repo's own
list test). -/
theorem listSSHKeys_query_encoding_witness :
    (listSSHKeys ⟨2, 50⟩ (fun _ => .error "down")).2 =
      [⟨"GET",
        "/ssh_keys?" ++ ("page=" ++ toString (2 : Nat) ++ "&" ++ ("per_page=" ++ toString (50 : Nat))),
        false⟩] :=
  listSSHKeys_query_encoding ⟨2, 50⟩ (fun _ => .error "down") (by decide) (by decide)

/-! ## Claim C7 -/

/-- Claim C7: `Delete` issues exactly one DELETE request to
`/ssh_keys/{id}` with no request body, and returns a nil error exactly when
the wire delivered a response with 2xx status (nothing is decoded from the
body: the body type is `Unit`). -/
theorem deleteSSHKey_request_and_status (id : Int) (wire : Wire Unit) :
    (deleteSSHKey id wire).2 = [⟨"DELETE", "/ssh_keys/" ++ toString id, false⟩] ∧
    ((deleteSSHKey id wire).1.err = none ↔
      ∃ r : HttpReply Unit, wire (deleteRequest id) = .ok r ∧
        200 ≤ r.status ∧ r.status < 300) := by
  constructor
  · unfold deleteSSHKey
    rcases clientDo (wire (deleteRequest id)) with ⟨r, e⟩
    cases e <;> rfl
  · cases hw : wire (deleteRequest id) with
    | error msg => simp [deleteSSHKey, clientDo, hw]
    | ok r =>
        by_cases h2 : 200 ≤ r.status ∧ r.status < 300
        · simp [deleteSSHKey, clientDo, hw, h2]
        · simp [deleteSSHKey, clientDo, hw, h2]

/-- Witness for C7: id 1, provider answering 204 No Content. -/
theorem deleteSSHKey_request_and_status_witness :
    (deleteSSHKey 1 (fun _ => .ok ⟨204, none, (), ""⟩)).2 =
      [⟨"DELETE", "/ssh_keys/" ++ toString (1 : Int), false⟩] ∧
    ((deleteSSHKey 1 (fun _ => .ok ⟨204, none, (), ""⟩)).1.err = none ↔
      ∃ r : HttpReply Unit, (fun _ => .ok ⟨204, none, (), ""⟩ : Wire Unit) (deleteRequest 1) = .ok r ∧
        200 ≤ r.status ∧ r.status < 300) :=
  deleteSSHKey_request_and_status 1 (fun _ => .ok ⟨204, none, (), ""⟩)

/-! ## Claim C8 -/

/-- Claim C8: on success (nil error), both `List` and `All` return a non-nil
slice, even when the provider returns zero SSH keys. -/
theorem list_and_all_nonnil_on_success :
    (∀ (opts : SSHKeyListOpts) (wire : Wire (List SchemaSSHKey)),
      (listSSHKeys opts wire).1.err = none →
        ∃ l, (listSSHKeys opts wire).1.sshKeys = some l) ∧
    (∀ (wire : Wire (List SchemaSSHKey)) (fuel : Nat),
      (allSSHKeys wire fuel).1.err = none →
        ∃ l, (allSSHKeys wire fuel).1.sshKeys = some l) := by
  constructor
  · intro opts wire h
    rcases hc : clientDo (wire (listRequest opts)) with ⟨r, e⟩
    cases e with
    | error e => exact absurd h (by simp [listSSHKeys, hc])
    | ok b => exact ⟨b.map SSHKeyFromSchema, by simp [listSSHKeys, hc]⟩
  · intro wire fuel h
    rcases hc : clientAll (allStep wire) fuel 1 ([], []) with ⟨⟨r, e⟩, s⟩
    cases e with
    | some e => exact absurd h (by simp [allSSHKeys, hc])
    | none => exact ⟨s.1, by simp [allSSHKeys, hc]⟩

/-- Witness for C8: a provider with zero SSH keys; both `List` and `All`
succeed with a (non-nil) slice. -/
theorem list_and_all_nonnil_on_success_witness :
    (∃ l, (listSSHKeys ⟨1, 50⟩ (fun _ => .ok ⟨200, none, [], ""⟩)).1.sshKeys = some l) ∧
    (∃ l, (allSSHKeys (fun _ => .ok ⟨200, none, [], ""⟩) 1).1.sshKeys = some l) :=
  ⟨list_and_all_nonnil_on_success.1 ⟨1, 50⟩ (fun _ => .ok ⟨200, none, [], ""⟩) rfl,
   list_and_all_nonnil_on_success.2 (fun _ => .ok ⟨200, none, [], ""⟩) 1 rfl⟩

/-! ## Behaviour of one aggregation step -/

/-- If the wire answers page `p` with a 2xx reply, the aggregation step
returns that page's response, no error, and appends the page's converted
keys and the page request. -/
theorem allStep_ok (wire : Wire (List SchemaSSHKey)) (p : Nat)
    (s : List SSHKey × List Request) (st : Nat) (meta : Option Pagination)
    (body : List SchemaSSHKey) (ec : String)
    (hw : wire (pageReq p) = .ok ⟨st, meta, body, ec⟩)
    (h2 : 200 ≤ st ∧ st < 300) :
    allStep wire p s =
      ((some ⟨st, meta⟩, none),
       (s.1 ++ body.map SSHKeyFromSchema, s.2 ++ [pageReq p])) := by
  have hls : listSSHKeys ⟨p, 50⟩ wire =
      (⟨some (body.map SSHKeyFromSchema), some ⟨st, meta⟩, none⟩, [pageReq p]) := by
    simp only [pageReq] at hw
    unfold listSSHKeys
    rw [hw]
    simp [clientDo, h2, pageReq]
  simp [allStep, hls]

/-- If `Do` fails for page `p` (transport failure or non-2xx), the
aggregation step returns `(nil, err)` and appends only the page request. -/
theorem allStep_err (wire : Wire (List SchemaSSHKey)) (p : Nat)
    (s : List SSHKey × List Request) (e : ClientError)
    (he : (clientDo (wire (pageReq p))).2 = .error e) :
    allStep wire p s = ((none, some e), (s.1, s.2 ++ [pageReq p])) := by
  have hls : listSSHKeys ⟨p, 50⟩ wire = (⟨none, none, some e⟩, [pageReq p]) := by
    simp only [pageReq] at he
    unfold listSSHKeys
    rcases hc : clientDo (wire (listRequest ⟨p, 50⟩)) with ⟨r, b⟩
    rw [hc] at he
    simp only at he
    subst he
    rfl
  simp [allStep, hls]

/-- Whatever the wire answers, the aggregation step appends exactly the
page-`p` request to the trace. -/
theorem allStep_trace (wire : Wire (List SchemaSSHKey)) (p : Nat)
    (s : List SSHKey × List Request) :
    (allStep wire p s).2.2 = s.2 ++ [pageReq p] := by
  rcases hls : listSSHKeys ⟨p, 50⟩ wire with ⟨r, reqs⟩
  have hreqs : reqs = [pageReq p] := by
    have h := listSSHKeys_trace ⟨p, 50⟩ wire
    rw [hls] at h
    exact h
  subst hreqs
  unfold allStep
  rw [hls]
  cases hre : r.err <;> simp [hre]

/-! ## Claim C5 -/

/-- Every request in the trace of the aggregation loop has the page-request
form (some page with `PerPage = 50`), provided the starting trace does. -/
theorem clientAll_trace_inv (wire : Wire (List SchemaSSHKey)) :
    ∀ (fuel k : Nat) (s : List SSHKey × List Request),
      (∀ r ∈ s.2, ∃ p, r = pageReq p) →
      ∀ r ∈ (clientAll (allStep wire) fuel k s).2.2, ∃ p, r = pageReq p := by
  intro fuel
  induction fuel with
  | zero => intro k s hs; simpa [clientAll] using hs
  | succ fuel ih =>
      intro k s hs
      rcases hst : allStep wire k s with ⟨⟨r?, e?⟩, s1⟩
      have hs1 : ∀ r ∈ s1.2, ∃ p, r = pageReq p := by
        have htr := allStep_trace wire k s
        rw [hst] at htr
        intro r hr
        rw [htr] at hr
        rcases List.mem_append.1 hr with h | h
        · exact hs r h
        · exact ⟨k, List.mem_singleton.1 h⟩
      simp only [clientAll]
      rw [hst]
      cases e? with
      | some e => exact hs1
      | none =>
          cases r? with
          | none => exact hs1
          | some resp =>
              cases hpg : resp.pagination with
              | none => simp only [hpg]; exact hs1
              | some pg =>
                  by_cases hlp : pg.LastPage ≤ k
                  · simp only [hpg, if_pos hlp]
                    exact hs1
                  · simp only [hpg, if_neg hlp]
                    exact ih (k + 1) s1 hs1

/-- Claim C5: every request issued by `All` is a list request with
`PerPage = 50`, for every wire behaviour and fuel. -/
theorem allSSHKeys_perPage_50 (wire : Wire (List SchemaSSHKey)) (fuel : Nat) :
    ∀ r ∈ (allSSHKeys wire fuel).2, ∃ p, r = listRequest ⟨p, 50⟩ := by
  intro r hr
  rcases hc : clientAll (allStep wire) fuel 1 ([], []) with ⟨⟨r?, e?⟩, s⟩
  have htrace : (allSSHKeys wire fuel).2 = s.2 := by
    cases e? <;> simp [allSSHKeys, hc]
  rw [htrace] at hr
  have h := clientAll_trace_inv wire fuel 1 ([], []) (by simp)
  rw [hc] at h
  exact h r hr

/-- Witness for C5: with a provider that is down, `All` issues the page-1
request with `PerPage = 50`. -/
theorem allSSHKeys_perPage_50_witness :
    ∃ p, pageReq 1 = listRequest ⟨p, 50⟩ :=
  allSSHKeys_perPage_50 (fun _ => .error "down") 1 (pageReq 1) (by decide)

/-! ## Claim C3 -/

/-- Success-path behaviour of the aggregation loop: if the wire answers
every page `p` with `k ≤ p ≤ n` with a 200 reply carrying metadata whose
last page is `n` and body `g p`, then starting the loop at page `k` (with
`c = n + 1 - k` pages left, enough fuel) appends exactly the concatenation
of those pages and their requests and reports no error. -/
theorem clientAll_pages_ok (wire : Wire (List SchemaSSHKey))
    (g : Nat → List SchemaSSHKey) (m : Nat → Pagination) (n : Nat)
    (hw : ∀ p, 1 ≤ p → p ≤ n → wire (pageReq p) = .ok ⟨200, some (m p), g p, ""⟩)
    (hm : ∀ p, 1 ≤ p → p ≤ n → (m p).LastPage = n) :
    ∀ (c k fuel : Nat) (s : List SSHKey × List Request),
      1 ≤ c → 1 ≤ k → k + c = n + 1 → c ≤ fuel →
      clientAll (allStep wire) fuel k s =
        ((some ⟨200, some (m n)⟩, none),
         (s.1 ++ (pageSeq g k c).map SSHKeyFromSchema, s.2 ++ reqSeq k c)) := by
  intro c
  induction c with
  | zero => intro k fuel s hc; omega
  | succ c ih =>
      intro k fuel s hc hk hkn hf
      obtain ⟨f, rfl⟩ : ∃ f, fuel = f + 1 := ⟨fuel - 1, by omega⟩
      have hkle : k ≤ n := by omega
      have hstep := allStep_ok wire k s 200 (some (m k)) (g k) ""
        (hw k hk hkle) (by omega)
      simp only [clientAll]
      rw [hstep]
      cases c with
      | zero =>
          have hkn2 : k = n := by omega
          subst hkn2
          simp only [hm k hk hkle, if_pos (le_refl k)]
          simp [pageSeq, reqSeq]
      | succ c2 =>
          have hlt : ¬ ((m k).LastPage ≤ k) := by
            rw [hm k hk hkle]
            omega
          simp only [hm k hk hkle] at hlt ⊢
          rw [if_neg hlt]
          rw [ih (k + 1) f (s.1 ++ (g k).map SSHKeyFromSchema, s.2 ++ [pageReq k])
            (by omega) (by omega) (by omega) (by omega)]
          simp [pageSeq, reqSeq, List.map_append, List.append_assoc]

/-- Claim C3: when every page of an `n`-page listing succeeds (each page `p`
reporting last page `n` and body `g p`), `All` returns exactly the pages'
keys concatenated in ascending page order (within-page order preserved by
`map`), no error, and fetches exactly pages 1 through `n`. -/
theorem allSSHKeys_concat_pages (wire : Wire (List SchemaSSHKey))
    (g : Nat → List SchemaSSHKey) (m : Nat → Pagination) (n fuel : Nat)
    (hn : 1 ≤ n) (hf : n ≤ fuel)
    (hw : ∀ p, 1 ≤ p → p ≤ n → wire (pageReq p) = .ok ⟨200, some (m p), g p, ""⟩)
    (hm : ∀ p, 1 ≤ p → p ≤ n → (m p).LastPage = n) :
    allSSHKeys wire fuel =
      (⟨some ((pageSeq g 1 n).map SSHKeyFromSchema), none⟩, reqSeq 1 n) := by
  have h := clientAll_pages_ok wire g m n hw hm n 1 fuel ([], [])
    hn (by omega) (by omega) hf
  unfold allSSHKeys
  rw [h]
  simp

/-- Witness for C3: two pages of one key each; `All` returns both keys in
page order and fetches pages 1 and 2. -/
theorem allSSHKeys_concat_pages_witness :
    allSSHKeys
      (fun r =>
        if r = pageReq 1 then .ok ⟨200, some ⟨1, 2, 50, 2⟩, [⟨1, "a", "f1", "p1"⟩], ""⟩
        else if r = pageReq 2 then .ok ⟨200, some ⟨2, 2, 50, 2⟩, [⟨2, "b", "f2", "p2"⟩], ""⟩
        else .error "off-script") 2 =
      (⟨some ((pageSeq
          (fun p => if p = 1 then [⟨1, "a", "f1", "p1"⟩] else [⟨2, "b", "f2", "p2"⟩]) 1 2).map
            SSHKeyFromSchema), none⟩,
       reqSeq 1 2) := by
  refine allSSHKeys_concat_pages
    (fun r =>
      if r = pageReq 1 then .ok ⟨200, some ⟨1, 2, 50, 2⟩, [⟨1, "a", "f1", "p1"⟩], ""⟩
      else if r = pageReq 2 then .ok ⟨200, some ⟨2, 2, 50, 2⟩, [⟨2, "b", "f2", "p2"⟩], ""⟩
      else .error "off-script")
    (fun p => if p = 1 then [⟨1, "a", "f1", "p1"⟩] else [⟨2, "b", "f2", "p2"⟩])
    (fun p => if p = 1 then ⟨1, 2, 50, 2⟩ else ⟨2, 2, 50, 2⟩)
    2 2 (by omega) (by omega) ?_ ?_
  · intro p h1 h2
    interval_cases p <;> rfl
  · intro p h1 h2
    interval_cases p <;> rfl

/-! ## Claim C2 -/

/-- Failure-path behaviour of the aggregation loop: pages `k .. j-1` succeed
(with last page `n`, `j ≤ n`), and `Do` fails for page `j`.  Starting at
page `k` (with `c = j - k`), the loop returns `(nil response, the page-j
error)`; the state has accumulated exactly pages `k .. j-1` and the requests
for pages `k .. j` — nothing past `j` is fetched. -/
theorem clientAll_fail_at (wire : Wire (List SchemaSSHKey))
    (g : Nat → List SchemaSSHKey) (m : Nat → Pagination) (n j : Nat) (e : ClientError)
    (hw : ∀ p, 1 ≤ p → p < j → wire (pageReq p) = .ok ⟨200, some (m p), g p, ""⟩)
    (hm : ∀ p, 1 ≤ p → p < j → (m p).LastPage = n)
    (hjn : j ≤ n)
    (he : (clientDo (wire (pageReq j))).2 = .error e) :
    ∀ (c k fuel : Nat) (s : List SSHKey × List Request),
      1 ≤ k → k + c = j → c < fuel →
      clientAll (allStep wire) fuel k s =
        ((none, some e),
         (s.1 ++ (pageSeq g k c).map SSHKeyFromSchema, s.2 ++ reqSeq k (c + 1))) := by
  intro c
  induction c with
  | zero =>
      intro k fuel s hk hkj hf
      obtain ⟨f, rfl⟩ : ∃ f, fuel = f + 1 := ⟨fuel - 1, by omega⟩
      have hkj2 : k = j := by omega
      subst hkj2
      have hstep := allStep_err wire k s e he
      simp only [clientAll]
      rw [hstep]
      simp [pageSeq, reqSeq]
  | succ c ih =>
      intro k fuel s hk hkj hf
      obtain ⟨f, rfl⟩ : ∃ f, fuel = f + 1 := ⟨fuel - 1, by omega⟩
      have hkj2 : k < j := by omega
      have hstep := allStep_ok wire k s 200 (some (m k)) (g k) ""
        (hw k hk hkj2) (by omega)
      simp only [clientAll]
      rw [hstep]
      have hlt : ¬ ((m k).LastPage ≤ k) := by
        rw [hm k hk hkj2]
        omega
      simp only [if_neg hlt]
      rw [ih (k + 1) f (s.1 ++ (g k).map SSHKeyFromSchema, s.2 ++ [pageReq k])
        (by omega) (by omega) (by omega)]
      simp [pageSeq, reqSeq, List.map_append, List.append_assoc]

/-- Claim C2: if pages `1 .. j-1` succeed and fetching page `j` fails, `All`
returns a nil slice and the page-`j` error: the partial results of the
earlier pages are discarded, and the request trace is exactly pages
`1 .. j` — no page after the failing one is fetched. -/
theorem allSSHKeys_fail_discards_partial (wire : Wire (List SchemaSSHKey))
    (g : Nat → List SchemaSSHKey) (m : Nat → Pagination) (n j fuel : Nat)
    (e : ClientError)
    (hj : 1 ≤ j) (hjn : j ≤ n) (hf : j ≤ fuel)
    (hw : ∀ p, 1 ≤ p → p < j → wire (pageReq p) = .ok ⟨200, some (m p), g p, ""⟩)
    (hm : ∀ p, 1 ≤ p → p < j → (m p).LastPage = n)
    (he : (clientDo (wire (pageReq j))).2 = .error e) :
    allSSHKeys wire fuel = (⟨none, some e⟩, reqSeq 1 j) := by
  have h := clientAll_fail_at wire g m n j e hw hm hjn he (j - 1) 1 fuel ([], [])
    (by omega) (by omega) (by omega)
  rw [show j - 1 + 1 = j from by omega] at h
  unfold allSSHKeys
  rw [h]
  simp

/-- Witness for C2: page 1 succeeds (one key, last page 2), the page-2 fetch
fails with a transport error; `All` returns nil keys, that error, and fetched
exactly pages 1 and 2. -/
theorem allSSHKeys_fail_discards_partial_witness :
    allSSHKeys
      (fun r =>
        if r = pageReq 1 then .ok ⟨200, some ⟨1, 2, 50, 2⟩, [⟨1, "a", "f1", "p1"⟩], ""⟩
        else .error "boom") 2 =
      (⟨none, some (.transport "boom")⟩, reqSeq 1 2) := by
  refine allSSHKeys_fail_discards_partial
    (fun r =>
      if r = pageReq 1 then .ok ⟨200, some ⟨1, 2, 50, 2⟩, [⟨1, "a", "f1", "p1"⟩], ""⟩
      else .error "boom")
    (fun _ => [⟨1, "a", "f1", "p1"⟩]) (fun _ => ⟨1, 2, 50, 2⟩) 2 2 2
    (.transport "boom") (by omega) (by omega) (by omega) ?_ ?_ ?_
  · intro p h1 h2
    interval_cases p
    rfl
  · intro p h1 h2
    interval_cases p
    rfl
  · rfl
